import Mathlib

/-!
Shallow embedding of the issue-backup tool (main.go): a paginated,
rate-limit-aware fetch engine (`Client.getIssues`, `Client.getIssueComments`,
sharing one page-walking loop `fetchLoop`), the backoff primitive
`waitForRateLimitReset`, and the orchestrator `backupIssues` that emits
issues and comments as a stream of JSON values.

Modelling conventions:
* Machine integers (`int`) become `Int`; page numbers and counters are `Nat`.
* A remote API call returns `Resp`: either a page of records together with
  the `NextPage` field of the response (0 meaning "no next page"), or an
  error (`GoErr`), which is either a `github.RateLimitError` carrying the
  reset timestamp or any other error.
* The remote endpoint is modelled as a function of the call number (how many
  calls this fetch invocation has issued so far) and the page selector
  (the `opt.Page` field, whose Go zero value 0 denotes the first page),
  so that a server whose answers vary over time (fail once, then succeed)
  is expressible.
* The unbounded `for` loops are given explicit fuel; running out of fuel
  yields `none`, so termination statements are existentials over fuel.
* Side effects (warnings, sleeps, the selectors of issued requests, the
  emitted output stream) are recorded in explicit result fields.
-/

namespace IssueBackup

/-- Error values returned by a remote API call: a `*github.RateLimitError`
carrying `Rate.Reset.Time` (modelled as an integer timestamp), or any other
non-nil error. -/
inductive GoErr where
  | rateLimit (reset : Int)
  | other
deriving DecidableEq, Repr

/-- Result of one paginated API call (`ListByRepo` / `ListComments`):
on success the records of the page together with `resp.NextPage`
(0 when there is no further page); otherwise the error. -/
inductive Resp (α : Type) where
  | ok (records : List α) (nextPage : Nat)
  | fail (e : GoErr)
deriving DecidableEq, Repr

/-- Whether a response is a rate-limit failure. -/
def Resp.isRL : Resp α → Bool
  | Resp.fail (GoErr.rateLimit _) => true
  | _ => false

/-- Embedding of `waitForRateLimitReset(err)`: given the current time `now`
and the error of the most recent call, return the boolean result together
with the duration actually suspended. A non-rate-limit error returns
`false` with no suspension; a rate-limit error computes
`delta = time.Until(reset)` and sleeps for it (`time.Sleep` returns
immediately on a non-positive duration), then returns `true`. -/
def waitForRateLimitReset (now : Int) : GoErr → Bool × Int
  | GoErr.rateLimit reset => (true, max (reset - now) 0)
  | GoErr.other => (false, 0)

/-- Fixed page size set in `ListOptions.PerPage` (100, by policy). -/
def perPage : Nat := 100

/-- Result of one fetch invocation (`getIssues` / `getIssueComments`):
the accumulated records, the returned Go error value (the source's single
`return allIssues, nil` statement), the page numbers named in emitted
warnings, the page selectors of every request issued in order, and the
reset timestamps of every rate-limit backoff taken. -/
structure FetchOut (α ε : Type) where
  records : List α
  err : Option ε
  warnings : List Nat
  callLog : List Nat
  backoffs : List Int
deriving DecidableEq, Repr

/-- Embedding of the page-walking `for` loop shared verbatim by
`getIssues` and `getIssueComments` (main.go lines 186-207 and 219-240):
state is the fuel, the number of calls issued so far, the current
`opt.Page` selector (initially the Go zero value 0), the warning page
counter `page` (initially 1), the accumulated records, the request log and
the backoff log. On success the page's records are appended; if
`resp.NextPage == 0` the loop stops, else `opt.Page = resp.NextPage`. On a
rate-limit error `waitForRateLimitReset` sleeps and the same selector is
re-requested; on any other error one warning naming `page` is emitted and
the loop stops, returning the partial records with a nil error. -/
def fetchLoop (ep : Nat → Nat → Resp α) :
    Nat → Nat → Nat → Nat → List α → List Nat → List Int → Option (FetchOut α ε)
  | 0, _, _, _, _, _, _ => none
  | fuel + 1, callIdx, optPage, page, acc, log, bks =>
    match ep callIdx optPage with
    | Resp.ok records next =>
        if next = 0 then
          some ⟨acc ++ records, none, [], log ++ [optPage], bks⟩
        else
          fetchLoop ep fuel (callIdx + 1) next (page + 1) (acc ++ records)
            (log ++ [optPage]) bks
    | Resp.fail (GoErr.rateLimit reset) =>
        fetchLoop ep fuel (callIdx + 1) optPage page acc
          (log ++ [optPage]) (bks ++ [reset])
    | Resp.fail GoErr.other =>
        some ⟨acc, none, [page], log ++ [optPage], bks⟩

/-- Run the page-walking loop from its initial state: no calls issued,
`opt.Page` unset (0), warning page counter 1, empty accumulators. -/
def fetchPages (ep : Nat → Nat → Resp α) (fuel : Nat) : Option (FetchOut α ε) :=
  fetchLoop ep fuel 0 0 1 [] [] []

/-- Embedding of the `Client` struct: the two remote endpoint capabilities
(`client.Issues.ListByRepo` and `client.Issues.ListComments`), each
parameterized by owner, repo (and issue number for comments), plus the
call number and the page selector. -/
structure Client (ι κ : Type) where
  listByRepo : String → String → Nat → Nat → Resp ι
  listComments : String → String → Int → Nat → Nat → Resp κ

/-- Embedding of `Client.getIssues(ownerName, repoName)`. -/
def Client.getIssues (c : Client ι κ) (ownerName repoName : String)
    (fuel : Nat) : Option (FetchOut ι ε) :=
  fetchPages (c.listByRepo ownerName repoName) fuel

/-- Embedding of `Client.getIssueComments(ownerName, repoName, issueNumber)`. -/
def Client.getIssueComments (c : Client ι κ) (ownerName repoName : String)
    (issueNumber : Int) (fuel : Nat) : Option (FetchOut κ ε) :=
  fetchPages (c.listComments ownerName repoName issueNumber) fuel

/-- Client over a single fake paginated source, used for both endpoints
(the two Go fetch functions are textually identical page walks). -/
def srcClient (ep : Nat → Nat → Resp α) : Client α α :=
  ⟨fun _ _ => ep, fun _ _ _ => ep⟩

/-- Embedding of the fields of a `github.Issue` that the orchestrator
consumes: `GetNumber()`, `GetComments()`, and the rest of the record as an
opaque payload that is round-tripped into the output stream. -/
structure Issue (ι : Type) where
  number : Int
  comments : Int
  payload : ι
deriving DecidableEq, Repr

/-- One event on the standard-output stream: an issue written by
`jsonutil.Write`, a comment array written by `jsonutil.Write`, or the
blank separator line written by `fmt.Println()`. -/
inductive OutEvent (ι κ : Type) where
  | issueJSON (issue : Issue ι)
  | commentsJSON (comments : List κ)
  | blankLine
deriving DecidableEq, Repr

/-- Whether an output event is a comments value. -/
def isCommentsEv : OutEvent ι κ → Bool
  | OutEvent.commentsJSON _ => true
  | _ => false

/-- Result of `backupIssues`: the emitted output stream, the issue numbers
for which a comment fetch was invoked (in invocation order), and the
returned Go error value. -/
structure BResult (ι κ ε : Type) where
  out : List (OutEvent ι κ)
  commentCalls : List Int
  err : Option ε
deriving DecidableEq, Repr

/-- Embedding of the per-issue loop of `backupIssues` (main.go lines
133-150). `getComments` is the comment-fetch capability (already scoped to
owner/repo, returning `none` if its loop runs out of fuel), `writeErr n`
is the error of the n-th `jsonutil.Write` call on the output stream
(`none` = success). For each issue: write the issue (propagating a write
error), print a blank line, and if `issue.GetComments() > 0` fetch that
issue's comments (propagating a fetch error), write them and print a blank
line. -/
def backupLoop (getComments : Int → Option (FetchOut κ ε))
    (writeErr : Nat → Option ε) :
    List (Issue ι) → Nat → List (OutEvent ι κ) → List Int →
    Option (BResult ι κ ε)
  | [], _, out, calls => some ⟨out, calls, none⟩
  | issue :: rest, w, out, calls =>
    match writeErr w with
    | some e => some ⟨out, calls, some e⟩
    | none =>
      if 0 < issue.comments then
        match getComments issue.number with
        | none => none
        | some cOut =>
          match cOut.err with
          | some e =>
              some ⟨out ++ [OutEvent.issueJSON issue, OutEvent.blankLine],
                calls ++ [issue.number], some e⟩
          | none =>
            match writeErr (w + 1) with
            | some e =>
                some ⟨out ++ [OutEvent.issueJSON issue, OutEvent.blankLine],
                  calls ++ [issue.number], some e⟩
            | none =>
                backupLoop getComments writeErr rest (w + 2)
                  (out ++ [OutEvent.issueJSON issue, OutEvent.blankLine,
                    OutEvent.commentsJSON cOut.records, OutEvent.blankLine])
                  (calls ++ [issue.number])
      else
        backupLoop getComments writeErr rest (w + 1)
          (out ++ [OutEvent.issueJSON issue, OutEvent.blankLine]) calls

/-- Embedding of `backupIssues(ownerName, repoName, token)` minus client
construction: fetch all issues (propagating a non-nil error with
`errors.WithStack`), then run the per-issue emission loop. `fuelI` and
`fuelC` bound the issue and comment page walks; exhausting either yields
`none` (the Go loop would not have returned). -/
def backupIssues (c : Client (Issue ι) κ) (ownerName repoName : String)
    (writeErr : Nat → Option ε) (fuelI fuelC : Nat) :
    Option (BResult ι κ ε) :=
  match Client.getIssues c ownerName repoName fuelI with
  | none => none
  | some iOut =>
    match iOut.err with
    | some e => some ⟨[], [], some e⟩
    | none =>
        backupLoop
          (fun issueNumber =>
            Client.getIssueComments c ownerName repoName issueNumber fuelC)
          writeErr iOut.records 0 [] []

/-! Fake paginated sources, following the testable properties of the spec. -/

/-- Fake error-free paginated source holding the given pages: the server
maps selector `sel` to the 0-based page index `sel - 1` (the Go zero value
0 and the explicit selector 1 both denote the first page), answers with
that page's records, and indicates the next page (or 0 past the last
page); a request beyond the last page yields one empty final page. -/
def pagedSource (pages : List (List α)) : Nat → Nat → Resp α :=
  fun _ sel =>
    match pages[sel - 1]? with
    | some records =>
        Resp.ok records (if sel - 1 + 1 < pages.length then sel - 1 + 2 else 0)
    | none => Resp.ok [] 0

/-- Fake source that answers pages 1..k (the given pages) successfully,
always indicating a further page, and fails with a non-rate-limit error on
every later page — so the walk fails on page k+1. -/
def truncSource (pages : List (List α)) : Nat → Nat → Resp α :=
  fun _ sel =>
    match pages[sel - 1]? with
    | some records => Resp.ok records (sel - 1 + 2)
    | none => Resp.fail GoErr.other

/-- Fake source that behaves like `pagedSource pages` except that its
call number `t` (and only that call) fails with a rate-limit error whose
reset timestamp is `reset`. -/
def rlOnceSource (pages : List (List α)) (t : Nat) (reset : Int) :
    Nat → Nat → Resp α :=
  fun callIdx sel =>
    if callIdx = t then Resp.fail (GoErr.rateLimit reset)
    else pagedSource pages callIdx sel

/-- Selector sent for the 0-based page index `idx`: the first page is
requested with the unset Go zero value 0, every later page with its
1-based page number `idx + 1`. -/
def selOf (idx : Nat) : Nat := if idx = 0 then 0 else idx + 1

/-- Selectors sent for the pages with 0-based indices `idx, ..., len - 1`. -/
def logSels (idx len : Nat) : List Nat := (List.range' idx (len - idx)).map selOf

/-- Output emitted for one issue by a failure-free pass of the per-issue
loop, given the records the comment fetch returns per issue number: the
issue value, a blank line, and — only when the issue advertises comments —
the fetched comment array and a blank line. -/
def emitOf (crecs : Int → List κ) (issue : Issue ι) : List (OutEvent ι κ) :=
  [OutEvent.issueJSON issue, OutEvent.blankLine] ++
    (if 0 < issue.comments then
      [OutEvent.commentsJSON (crecs issue.number), OutEvent.blankLine]
    else [])

/-- Output emitted for a list of issues by a failure-free run. -/
def emitAll (crecs : Int → List κ) (issues : List (Issue ι)) :
    List (OutEvent ι κ) :=
  (issues.map (emitOf crecs)).flatten

/-- Issue numbers for which the orchestrator invokes the comment fetch:
exactly the issues advertising a positive comment count, in order. -/
def commentNums (issues : List (Issue ι)) : List Int :=
  (issues.filter (fun issue => decide (0 < issue.comments))).map Issue.number

/-- Number of output writes performed while processing the given issues
without failure: one per issue, plus one per fetched comment array. -/
def writesUsed (issues : List (Issue ι)) : Nat :=
  (issues.map (fun issue => if 0 < issue.comments then 2 else 1)).sum

/-! Helper lemmas. -/

/-- Every terminating run of the page-walking loop returns a nil Go error:
both `return` paths of the loop construct the result with `nil`. -/
theorem fetchLoop_err_none {α ε : Type} (ep : Nat → Nat → Resp α) :
    ∀ (fuel callIdx optPage page : Nat) (acc : List α) (log : List Nat)
      (bks : List Int) (out : FetchOut α ε),
      fetchLoop ep fuel callIdx optPage page acc log bks = some out →
      out.err = none := by
  intro fuel
  induction fuel with
  | zero =>
    intro _ _ _ _ _ _ out h
    simp [fetchLoop] at h
  | succ fuel ih =>
    intro callIdx optPage page acc log bks out h
    rw [fetchLoop] at h
    cases hres : ep callIdx optPage with
    | ok records next =>
      rw [hres] at h
      by_cases hn : next = 0
      · simp only [hn, if_pos rfl] at h
        cases h
        rfl
      · simp only [if_neg hn] at h
        exact ih _ _ _ _ _ _ _ h
    | fail e =>
      rw [hres] at h
      cases e with
      | rateLimit reset => exact ih _ _ _ _ _ _ _ h
      | other =>
        cases h
        rfl

/-- Every terminating `getIssues` run returns a nil Go error. -/
theorem getIssues_err_none {ι κ ε : Type} (c : Client ι κ)
    (ownerName repoName : String) (fuel : Nat) (out : FetchOut ι ε)
    (h : Client.getIssues c ownerName repoName fuel = some out) :
    out.err = none :=
  fetchLoop_err_none _ _ _ _ _ _ _ _ _ h

/-- Every terminating `getIssueComments` run returns a nil Go error. -/
theorem getIssueComments_err_none {ι κ ε : Type} (c : Client ι κ)
    (ownerName repoName : String) (issueNumber : Int) (fuel : Nat)
    (out : FetchOut κ ε)
    (h : Client.getIssueComments c ownerName repoName issueNumber fuel = some out) :
    out.err = none :=
  fetchLoop_err_none _ _ _ _ _ _ _ _ _ h

/-- The selector of page index `idx` denotes that page on the server side. -/
theorem selOf_sub_one (idx : Nat) : selOf idx - 1 = idx := by
  unfold selOf
  split <;> omega

/-- Unfolding of the request-selector list at a page index below `len`. -/
theorem logSels_cons {idx len : Nat} (h : idx < len) :
    logSels idx len = selOf idx :: logSels (idx + 1) len := by
  unfold logSels
  have h1 : len - idx = (len - (idx + 1)) + 1 := by omega
  rw [h1, List.range'_succ]
  rfl

/-- The request-selector list is empty when no page index remains. -/
theorem logSels_nil {idx len : Nat} (h : len ≤ idx) : logSels idx len = [] := by
  unfold logSels
  have h0 : len - idx = 0 := by omega
  rw [h0]
  rfl

/-- The error-free fake source answers the request for page index `idx`
with that page and the next-page indicator. -/
theorem pagedSource_selOf {α : Type} (pages : List (List α))
    (callIdx idx : Nat) (h : idx < pages.length) :
    pagedSource pages callIdx (selOf idx) =
      Resp.ok (pages.get ⟨idx, h⟩)
        (if idx + 1 < pages.length then idx + 2 else 0) := by
  unfold pagedSource
  rw [selOf_sub_one, List.getElem?_eq_getElem h]
  rfl

/-- Run of the page-walking loop over the error-free fake source, from any
page index: it accumulates exactly the remaining pages in order, requests
each remaining page once with its selector, finishes without warnings or
backoffs, and returns a nil error. -/
theorem fetchLoop_pagedSource {α ε : Type} (pages : List (List α)) :
    ∀ (fuel idx : Nat), idx < pages.length → pages.length - idx ≤ fuel →
    ∀ (callIdx page : Nat) (acc : List α) (log : List Nat) (bks : List Int),
      fetchLoop (ε := ε) (pagedSource pages) fuel callIdx (selOf idx) page
          acc log bks =
        some ⟨acc ++ (pages.drop idx).flatten, none, [],
              log ++ logSels idx pages.length, bks⟩ := by
  intro fuel
  induction fuel with
  | zero => intro idx h hf; omega
  | succ fuel ih =>
    intro idx h hf callIdx page acc log bks
    rw [fetchLoop, pagedSource_selOf pages callIdx idx h]
    dsimp only
    by_cases hlt : idx + 1 < pages.length
    · rw [if_pos hlt]
      have hne : ¬(idx + 2 = 0) := by omega
      rw [if_neg hne]
      have hsel : idx + 2 = selOf (idx + 1) := by unfold selOf; split <;> omega
      rw [hsel, ih (idx + 1) hlt (by omega)]
      have hdrop : pages.drop idx = pages.get ⟨idx, h⟩ :: pages.drop (idx + 1) :=
        List.drop_eq_getElem_cons h
      rw [logSels_cons h, hdrop]
      simp only [List.flatten_cons, List.append_assoc, List.singleton_append,
        List.cons_append, List.nil_append]
    · rw [if_neg hlt, if_pos rfl]
      have hdrop : pages.drop idx = pages.get ⟨idx, h⟩ :: pages.drop (idx + 1) :=
        List.drop_eq_getElem_cons h
      have hnil : pages.drop (idx + 1) = [] :=
        List.drop_eq_nil_of_le (by omega)
      rw [hdrop, hnil, logSels_cons h, logSels_nil (by omega)]
      simp only [List.flatten_cons, List.flatten_nil, List.append_nil]

/-- Full run of the page walk over the error-free fake source: all records
in original order, no error, no warnings, one request per page starting
with the unset selector (an empty source is still asked for its first
page, which comes back empty). -/
theorem fetchPages_pagedSource {α ε : Type} (pages : List (List α))
    (fuel : Nat) (hf : pages.length + 1 ≤ fuel) :
    fetchPages (ε := ε) (pagedSource pages) fuel =
      some ⟨pages.flatten, none, [], logSels 0 (max pages.length 1), []⟩ := by
  cases pages with
  | nil =>
    cases fuel with
    | zero => omega
    | succ fuel => rw [fetchPages, fetchLoop]; rfl
  | cons p ps =>
    have h0 : (0 : Nat) < (p :: ps).length := by simp
    have h := fetchLoop_pagedSource (ε := ε) (p :: ps) fuel 0 h0 (by omega)
      0 1 [] [] []
    rw [show selOf 0 = 0 from rfl] at h
    rw [fetchPages, h]
    have hmax : max (p :: ps).length 1 = (p :: ps).length :=
      Nat.max_eq_left (by simp)
    rw [hmax, List.drop_zero, List.nil_append, List.nil_append]

/-- The truncating fake source answers the request for a page index below
`k` with that page, always indicating a further page. -/
theorem truncSource_selOf {α : Type} (pages : List (List α))
    (callIdx idx : Nat) (h : idx < pages.length) :
    truncSource pages callIdx (selOf idx) =
      Resp.ok (pages.get ⟨idx, h⟩) (idx + 2) := by
  unfold truncSource
  rw [selOf_sub_one, List.getElem?_eq_getElem h]
  rfl

/-- The truncating fake source fails with a non-rate-limit error on every
page index past its pages. -/
theorem truncSource_fail {α : Type} (pages : List (List α))
    (callIdx idx : Nat) (h : pages.length ≤ idx) :
    truncSource pages callIdx (selOf idx) = Resp.fail GoErr.other := by
  unfold truncSource
  rw [selOf_sub_one, List.getElem?_eq_none h]

/-- Run of the page-walking loop over the truncating fake source from any
page index: it accumulates the remaining successful pages, then warns once
(naming the page counter reached) and stops with a nil error. -/
theorem fetchLoop_truncSource {α ε : Type} (pages : List (List α)) :
    ∀ (fuel idx : Nat), idx ≤ pages.length → pages.length - idx + 1 ≤ fuel →
    ∀ (callIdx page : Nat) (acc : List α) (log : List Nat) (bks : List Int),
      fetchLoop (ε := ε) (truncSource pages) fuel callIdx (selOf idx) page
          acc log bks =
        some ⟨acc ++ (pages.drop idx).flatten, none,
              [page + (pages.length - idx)],
              log ++ logSels idx (pages.length + 1), bks⟩ := by
  intro fuel
  induction fuel with
  | zero => intro idx h hf; omega
  | succ fuel ih =>
    intro idx h hf callIdx page acc log bks
    by_cases hlt : idx < pages.length
    · rw [fetchLoop, truncSource_selOf pages callIdx idx hlt]
      dsimp only
      rw [if_neg (by omega : ¬(idx + 2 = 0))]
      have hsel : idx + 2 = selOf (idx + 1) := by unfold selOf; split <;> omega
      rw [hsel, ih (idx + 1) (by omega) (by omega)]
      have hdrop : pages.drop idx = pages.get ⟨idx, hlt⟩ :: pages.drop (idx + 1) :=
        List.drop_eq_getElem_cons hlt
      have hpage : page + 1 + (pages.length - (idx + 1)) =
          page + (pages.length - idx) := by omega
      rw [logSels_cons (by omega : idx < pages.length + 1), hdrop, hpage]
      simp only [List.flatten_cons, List.append_assoc, List.singleton_append,
        List.cons_append, List.nil_append]
    · have hidx : idx = pages.length := by omega
      subst hidx
      rw [fetchLoop, truncSource_fail pages callIdx _ le_rfl]
      dsimp only
      rw [List.drop_length, logSels_cons (by omega : pages.length < pages.length + 1),
        logSels_nil (by omega)]
      simp only [List.flatten_nil, List.append_nil, Nat.sub_self, Nat.add_zero]

/-- Full run of the page walk over the truncating fake source. -/
theorem fetchPages_truncSource {α ε : Type} (pages : List (List α))
    (fuel : Nat) (hf : pages.length + 1 ≤ fuel) :
    fetchPages (ε := ε) (truncSource pages) fuel =
      some ⟨pages.flatten, none, [pages.length + 1],
            logSels 0 (pages.length + 1), []⟩ := by
  have h := fetchLoop_truncSource (ε := ε) pages fuel 0 (by omega) (by omega)
    0 1 [] [] []
  rw [show selOf 0 = 0 from rfl] at h
  rw [fetchPages, h]
  have h1 : 1 + (pages.length - 0) = pages.length + 1 := by omega
  rw [h1, List.drop_zero, List.nil_append, List.nil_append]

/-! Claim theorems. -/

/-- C1: for every paginated source with its records split across pages of
size at most 100 that returns no errors, the fetcher (`getIssues`, and
likewise `getIssueComments`) returns all records concatenated in original
page-and-within-page order, with a nil error and no warnings, requesting
page 1 first (the unset selector 0) and then each indicated next page
exactly once. -/
theorem pagination_completeness {α ε : Type} (pages : List (List α))
    (_h100 : ∀ p ∈ pages, p.length ≤ perPage) (fuel : Nat)
    (hf : pages.length + 1 ≤ fuel) (ownerName repoName : String)
    (issueNumber : Int) :
    Client.getIssues (ε := ε) (srcClient (pagedSource pages))
        ownerName repoName fuel =
      some ⟨pages.flatten, none, [], logSels 0 (max pages.length 1), []⟩ ∧
    Client.getIssueComments (ε := ε) (srcClient (pagedSource pages))
        ownerName repoName issueNumber fuel =
      some ⟨pages.flatten, none, [], logSels 0 (max pages.length 1), []⟩ :=
  ⟨fetchPages_pagedSource pages fuel hf, fetchPages_pagedSource pages fuel hf⟩

/-- Witness for C1 at a concrete two-page source. -/
theorem pagination_completeness_witness :
    Client.getIssues (ε := Unit) (srcClient (pagedSource [[1, 2], [3]]))
        "acme" "widgets" 3 =
      some ⟨[1, 2, 3], none, [], [0, 2], []⟩ ∧
    Client.getIssueComments (ε := Unit) (srcClient (pagedSource [[1, 2], [3]]))
        "acme" "widgets" 7 3 =
      some ⟨[1, 2, 3], none, [], [0, 2], []⟩ := by
  have h := pagination_completeness (ε := Unit) [[1, 2], [3]] (by decide) 3
    (by decide) "acme" "widgets" 7
  exact ⟨by rw [h.1]; rfl, by rw [h.2]; rfl⟩

/-- C2: for every source that succeeds for pages 1..k and then returns a
non-rate-limit error on page k+1, the fetcher returns exactly the records
of pages 1..k in fetch order, signals success (a nil error value) to its
caller, and emits exactly one warning, naming page k+1. -/
theorem truncation_reports_success {α ε : Type} (pages : List (List α))
    (fuel : Nat) (hf : pages.length + 1 ≤ fuel) (ownerName repoName : String)
    (issueNumber : Int) :
    Client.getIssues (ε := ε) (srcClient (truncSource pages))
        ownerName repoName fuel =
      some ⟨pages.flatten, none, [pages.length + 1],
            logSels 0 (pages.length + 1), []⟩ ∧
    Client.getIssueComments (ε := ε) (srcClient (truncSource pages))
        ownerName repoName issueNumber fuel =
      some ⟨pages.flatten, none, [pages.length + 1],
            logSels 0 (pages.length + 1), []⟩ :=
  ⟨fetchPages_truncSource pages fuel hf, fetchPages_truncSource pages fuel hf⟩

/-- Witness for C2 at a concrete source failing on page 3. -/
theorem truncation_reports_success_witness :
    Client.getIssues (ε := Unit) (srcClient (truncSource [[1, 2], [3]]))
        "acme" "widgets" 4 =
      some ⟨[1, 2, 3], none, [3], [0, 2, 3], []⟩ ∧
    Client.getIssueComments (ε := Unit) (srcClient (truncSource [[1, 2], [3]]))
        "acme" "widgets" 7 4 =
      some ⟨[1, 2, 3], none, [3], [0, 2, 3], []⟩ := by
  have h := truncation_reports_success (ε := Unit) [[1, 2], [3]] 4
    (by decide) "acme" "widgets" 7
  exact ⟨by rw [h.1]; rfl, by rw [h.2]; rfl⟩

/-- Runs of the page walk agree for two endpoints that agree from the
current call number on; the loop only issues calls with increasing call
numbers. -/
theorem fetchLoop_congr {α ε : Type} (ep1 ep2 : Nat → Nat → Resp α) :
    ∀ (fuel callIdx optPage page : Nat) (acc : List α) (log : List Nat)
      (bks : List Int),
      (∀ m sel, callIdx ≤ m → ep1 m sel = ep2 m sel) →
      fetchLoop (ε := ε) ep1 fuel callIdx optPage page acc log bks =
        fetchLoop (ε := ε) ep2 fuel callIdx optPage page acc log bks := by
  intro fuel
  induction fuel with
  | zero => intro _ _ _ _ _ _ _; rfl
  | succ fuel ih =>
    intro callIdx optPage page acc log bks hagree
    rw [fetchLoop, fetchLoop, hagree callIdx optPage le_rfl]
    cases hres : ep2 callIdx optPage with
    | ok records next =>
      dsimp only
      by_cases hn : next = 0
      · rw [if_pos hn, if_pos hn]
      · rw [if_neg hn, if_neg hn,
          ih _ _ _ _ _ _ (fun m sel hm => hagree m sel (by omega))]
    | fail e =>
      cases e with
      | rateLimit reset =>
        dsimp only
        rw [ih _ _ _ _ _ _ (fun m sel hm => hagree m sel (by omega))]
      | other => rfl

/-- The once-rate-limited fake source fails its call number `t`. -/
theorem rlOnceSource_self {α : Type} (pages : List (List α)) (t : Nat)
    (reset : Int) (sel : Nat) :
    rlOnceSource pages t reset t sel = Resp.fail (GoErr.rateLimit reset) := by
  unfold rlOnceSource
  rw [if_pos rfl]

/-- The once-rate-limited fake source behaves like the error-free source
on every other call number. -/
theorem rlOnceSource_ne {α : Type} (pages : List (List α)) (t : Nat)
    (reset : Int) (callIdx sel : Nat) (h : ¬(callIdx = t)) :
    rlOnceSource pages t reset callIdx sel = pagedSource pages callIdx sel := by
  unfold rlOnceSource
  rw [if_neg h]

/-- Run of the page-walking loop over the once-rate-limited fake source,
starting at page index `idx` with the call number still in lockstep with
the page index: the rate-limited request for page index `t` is re-issued
with the unchanged selector after one backoff, and the final records are
exactly the remaining pages in order with a nil error and no warnings. -/
theorem fetchLoop_rlOnceSource {α ε : Type} (pages : List (List α))
    (t : Nat) (reset : Int) (ht : t < pages.length) :
    ∀ (d idx : Nat), idx + d = t →
    ∀ (fuel : Nat), pages.length - idx + 2 ≤ fuel →
    ∀ (page : Nat) (acc : List α) (log : List Nat) (bks : List Int),
      fetchLoop (ε := ε) (rlOnceSource pages t reset) fuel idx (selOf idx)
          page acc log bks =
        some ⟨acc ++ (pages.drop idx).flatten, none, [],
              log ++ (logSels idx t ++
                selOf t :: selOf t :: logSels (t + 1) pages.length),
              bks ++ [reset]⟩ := by
  intro d
  induction d with
  | zero =>
    intro idx hidx fuel hf page acc log bks
    have h0 : idx = t := by omega
    subst h0
    cases fuel with
    | zero => omega
    | succ fuel =>
      rw [fetchLoop, rlOnceSource_self]
      dsimp only
      rw [fetchLoop_congr (rlOnceSource pages idx reset) (pagedSource pages)
          fuel (idx + 1) _ _ _ _ _
          (fun m sel hm => rlOnceSource_ne pages idx reset m sel (by omega)),
        fetchLoop_pagedSource pages fuel idx ht (by omega),
        logSels_nil (le_refl idx), logSels_cons ht]
      simp only [List.nil_append, List.append_assoc, List.singleton_append,
        List.cons_append]
  | succ d ihd =>
    intro idx hidx fuel hf page acc log bks
    have hlt : idx < t := by omega
    have hlen : idx < pages.length := by omega
    cases fuel with
    | zero => omega
    | succ fuel =>
      rw [fetchLoop, rlOnceSource_ne pages t reset idx _ (by omega),
        pagedSource_selOf pages idx idx hlen]
      dsimp only
      have hlt1 : idx + 1 < pages.length := by omega
      rw [if_pos hlt1, if_neg (by omega : ¬(idx + 2 = 0))]
      have hsel : idx + 2 = selOf (idx + 1) := by unfold selOf; split <;> omega
      rw [hsel, ihd (idx + 1) (by omega) fuel (by omega)]
      have hdrop : pages.drop idx = pages.get ⟨idx, hlen⟩ :: pages.drop (idx + 1) :=
        List.drop_eq_getElem_cons hlen
      rw [logSels_cons hlt, hdrop]
      simp only [List.flatten_cons, List.append_assoc, List.singleton_append,
        List.cons_append, List.nil_append]

/-- Full run of the page walk over the once-rate-limited fake source. -/
theorem fetchPages_rlOnceSource {α ε : Type} (pages : List (List α))
    (t : Nat) (reset : Int) (ht : t < pages.length) (fuel : Nat)
    (hf : pages.length + 2 ≤ fuel) :
    fetchPages (ε := ε) (rlOnceSource pages t reset) fuel =
      some ⟨pages.flatten, none, [],
            logSels 0 t ++ selOf t :: selOf t :: logSels (t + 1) pages.length,
            [reset]⟩ := by
  have h := fetchLoop_rlOnceSource (ε := ε) pages t reset ht t 0 (by omega)
    fuel (by omega) 1 [] [] []
  rw [show selOf 0 = 0 from rfl] at h
  rw [fetchPages, h, List.drop_zero, List.nil_append, List.nil_append,
    List.nil_append]

/-- Splitting the selector list of an error-free run at page index `t`:
the retried run's request log differs from it exactly by the duplicated
selector of page index `t`. -/
theorem logSels_split {t len : Nat} (h : t < len) :
    logSels 0 len = logSels 0 t ++ selOf t :: logSels (t + 1) len := by
  unfold logSels
  have h1 : len - 0 = (len - t) + t := by omega
  rw [h1, ← List.range'_append_1 0 t (len - t), Nat.zero_add]
  have h2 : len - t = (len - (t + 1)) + 1 := by omega
  rw [h2, List.range'_succ, List.map_append]
  rfl

/-- C5: for every source that returns a rate-limit error exactly once, on
the first request for page index `t` (page t+1, page 1 included via
`t = 0`), and otherwise behaves like the error-free source, the fetcher
takes one backoff (recording the carried reset time), re-requests the same
page with the unchanged selector — the request log is the error-free log
with the selector of page index `t` duplicated — and returns records
identical in order and content to the no-error run. -/
theorem rate_limit_retry {α ε : Type} (pages : List (List α)) (t : Nat)
    (reset : Int) (fuel : Nat) (ht : t < pages.length)
    (hf : pages.length + 2 ≤ fuel) (ownerName repoName : String)
    (issueNumber : Int) :
    Client.getIssues (ε := ε) (srcClient (rlOnceSource pages t reset))
        ownerName repoName fuel =
      some ⟨pages.flatten, none, [],
            logSels 0 t ++ selOf t :: selOf t :: logSels (t + 1) pages.length,
            [reset]⟩ ∧
    Client.getIssueComments (ε := ε) (srcClient (rlOnceSource pages t reset))
        ownerName repoName issueNumber fuel =
      some ⟨pages.flatten, none, [],
            logSels 0 t ++ selOf t :: selOf t :: logSels (t + 1) pages.length,
            [reset]⟩ ∧
    Client.getIssues (ε := ε) (srcClient (pagedSource pages))
        ownerName repoName fuel =
      some ⟨pages.flatten, none, [], logSels 0 pages.length, []⟩ ∧
    logSels 0 pages.length = logSels 0 t ++ selOf t :: logSels (t + 1) pages.length := by
  refine ⟨fetchPages_rlOnceSource pages t reset ht fuel hf,
    fetchPages_rlOnceSource pages t reset ht fuel hf, ?_, logSels_split ht⟩
  have h := fetchPages_pagedSource (ε := ε) pages fuel (by omega)
  have hmax : max pages.length 1 = pages.length := Nat.max_eq_left (by omega)
  rw [hmax] at h
  exact h

/-- Witness for C5: a three-page source rate-limited once on page 3, and
once on page 1 (the first-page edge case). -/
theorem rate_limit_retry_witness :
    (Client.getIssues (ε := Unit) (srcClient (rlOnceSource [[1, 2], [3], [4]] 2 99))
        "acme" "widgets" 5 =
      some ⟨[1, 2, 3, 4], none, [], [0, 2, 3, 3], [99]⟩) ∧
    (Client.getIssues (ε := Unit) (srcClient (rlOnceSource [[1, 2], [3], [4]] 0 99))
        "acme" "widgets" 5 =
      some ⟨[1, 2, 3, 4], none, [], [0, 0, 2, 3], [99]⟩) ∧
    (Client.getIssues (ε := Unit) (srcClient (pagedSource [[1, 2], [3], [4]]))
        "acme" "widgets" 5 =
      some ⟨[1, 2, 3, 4], none, [], [0, 2, 3], []⟩) := by
  have h2 := rate_limit_retry (ε := Unit) [[1, 2], [3], [4]] 2 99 5 (by decide)
    (by decide) "acme" "widgets" 7
  have h0 := rate_limit_retry (ε := Unit) [[1, 2], [3], [4]] 0 99 5 (by decide)
    (by decide) "acme" "widgets" 7
  exact ⟨by rw [h2.1]; rfl, by rw [h0.1]; rfl, by rw [h2.2.2.1]; rfl⟩

/-- C4: `waitForRateLimitReset` returns `true` exactly on a rate-limit
error; a non-rate-limit error yields `false` immediately with no
suspension, and a rate-limit error suspends for `reset - now` when that
difference is positive (and not at all otherwise) before returning
`true`. -/
theorem wait_for_rate_limit_reset_contract (now : Int) (e : GoErr) :
    ((waitForRateLimitReset now e).1 = true ↔ ∃ reset, e = GoErr.rateLimit reset) ∧
    (e = GoErr.other → waitForRateLimitReset now e = (false, 0)) ∧
    (∀ reset, e = GoErr.rateLimit reset →
      (waitForRateLimitReset now e).1 = true ∧
      (waitForRateLimitReset now e).2 =
        (if 0 < reset - now then reset - now else 0)) := by
  cases e with
  | rateLimit reset =>
    refine ⟨⟨fun _ => ⟨reset, rfl⟩, fun _ => rfl⟩, ?_, ?_⟩
    · intro h
      cases h
    · intro reset' h
      cases h
      refine ⟨rfl, ?_⟩
      show max (reset - now) 0 = _
      by_cases hp : 0 < reset - now
      · rw [if_pos hp]
        exact max_eq_left (by omega)
      · rw [if_neg hp]
        exact max_eq_right (by omega)
  | other =>
    refine ⟨⟨?_, ?_⟩, fun _ => rfl, ?_⟩
    · intro h
      simp [waitForRateLimitReset] at h
    · intro h
      obtain ⟨r, hr⟩ := h
      cases hr
    · intro reset h
      cases h

/-- Witness for C4 at a future reset, a past reset, and another error. -/
theorem wait_for_rate_limit_reset_witness :
    waitForRateLimitReset 5 (GoErr.rateLimit 7) = (true, 2) ∧
    waitForRateLimitReset 5 (GoErr.rateLimit 3) = (true, 0) ∧
    waitForRateLimitReset 5 GoErr.other = (false, 0) := by
  have h7 := (wait_for_rate_limit_reset_contract 5 (GoErr.rateLimit 7)).2.2 7 rfl
  have h3 := (wait_for_rate_limit_reset_contract 5 (GoErr.rateLimit 3)).2.2 3 rfl
  have ho := (wait_for_rate_limit_reset_contract 5 GoErr.other).2.1 rfl
  refine ⟨?_, ?_, ho⟩
  · have : (waitForRateLimitReset 5 (GoErr.rateLimit 7)).2 = 2 := by
      rw [h7.2]; decide
    exact Prod.ext h7.1 this
  · have : (waitForRateLimitReset 5 (GoErr.rateLimit 3)).2 = 0 := by
      rw [h3.2]; decide
    exact Prod.ext h3.1 this

/-- Unfolding of the write count at a cons. -/
theorem writesUsed_cons {ι : Type} (issue : Issue ι) (rest : List (Issue ι)) :
    writesUsed (issue :: rest) =
      (if 0 < issue.comments then 2 else 1) + writesUsed rest := by
  unfold writesUsed
  rw [List.map_cons, List.sum_cons]

/-- Failure-free run of the per-issue loop: when every write succeeds and
every comment fetch terminates with a nil error, the loop emits, per issue
in order, the issue value, a blank line, and — exactly when the issue
advertises comments — the fetched comment array and a blank line; the
comment fetch is invoked exactly for the issues with a positive comment
count, in order, and the loop returns a nil error. -/
theorem backupLoop_ok {ι κ ε : Type} (gc : Int → Option (FetchOut κ ε))
    (gout : Int → FetchOut κ ε) (we : Nat → Option ε)
    (hgc : ∀ m, gc m = some (gout m)) (hge : ∀ m, (gout m).err = none)
    (hwe : ∀ n, we n = none) :
    ∀ (issues : List (Issue ι)) (w : Nat) (out : List (OutEvent ι κ))
      (calls : List Int),
      backupLoop gc we issues w out calls =
        some ⟨out ++ emitAll (fun m => (gout m).records) issues,
              calls ++ commentNums issues, none⟩ := by
  intro issues
  induction issues with
  | nil =>
    intro w out calls
    rw [backupLoop]
    simp [emitAll, commentNums]
  | cons issue rest ih =>
    intro w out calls
    rw [backupLoop, hwe w]
    dsimp only
    by_cases hc : 0 < issue.comments
    · rw [if_pos hc, hgc issue.number]
      dsimp only
      rw [hge issue.number]
      dsimp only
      rw [hwe (w + 1)]
      dsimp only
      rw [ih]
      simp only [emitAll, commentNums, emitOf, List.map_cons, List.flatten_cons,
        List.filter_cons, decide_eq_true hc, if_pos hc, List.append_assoc,
        List.cons_append, List.nil_append, List.singleton_append, if_true,
        if_false]
    · rw [if_neg hc, ih]
      simp only [emitAll, commentNums, emitOf, List.map_cons, List.flatten_cons,
        List.filter_cons, if_neg hc, List.append_assoc, List.cons_append,
        List.nil_append, List.append_nil, decide_eq_false hc, Bool.false_eq_true,
        List.singleton_append, if_true, if_false]

/-- Any error a terminating per-issue loop returns is a write error,
provided every terminating comment fetch reports a nil error. -/
theorem backupLoop_err_from_write {ι κ ε : Type}
    (gc : Int → Option (FetchOut κ ε)) (we : Nat → Option ε)
    (hge : ∀ m cOut, gc m = some cOut → FetchOut.err cOut = none) :
    ∀ (issues : List (Issue ι)) (w : Nat) (out : List (OutEvent ι κ))
      (calls : List Int) (res : BResult ι κ ε) (e : ε),
      backupLoop gc we issues w out calls = some res → res.err = some e →
      ∃ n, we n = some e := by
  intro issues
  induction issues with
  | nil =>
    intro w out calls res e h he
    rw [backupLoop] at h
    cases h
    cases he
  | cons issue rest ih =>
    intro w out calls res e h he
    rw [backupLoop] at h
    cases hw : we w with
    | some e0 =>
      rw [hw] at h
      dsimp only at h
      cases h
      exact ⟨w, hw.trans he⟩
    | none =>
      rw [hw] at h
      dsimp only at h
      by_cases hc : 0 < issue.comments
      · rw [if_pos hc] at h
        cases hg : gc issue.number with
        | none =>
          rw [hg] at h
          cases h
        | some cOut =>
          rw [hg] at h
          dsimp only at h
          rw [hge issue.number cOut hg] at h
          dsimp only at h
          cases hw1 : we (w + 1) with
          | some e1 =>
            rw [hw1] at h
            dsimp only at h
            cases h
            exact ⟨w + 1, hw1.trans he⟩
          | none =>
            rw [hw1] at h
            dsimp only at h
            exact ih _ _ _ _ _ h he
      · rw [if_neg hc] at h
        exact ih _ _ _ _ _ h he

/-- C3: for every client behaviour, every terminating `getIssues` or
`getIssueComments` run returns a nil error to its caller, and any error a
terminating `backupIssues` run returns originates from an output write —
the orchestrator's fatal-error branch after the issues fetch is
unreachable via fetch failures. -/
theorem fetcher_always_signals_success {ι κ ε : Type} (c : Client (Issue ι) κ)
    (ownerName repoName : String) (issueNumber : Int)
    (writeErr : Nat → Option ε) (fuelI fuelC : Nat) :
    (∀ (fuel : Nat) (out : FetchOut (Issue ι) ε),
      Client.getIssues c ownerName repoName fuel = some out →
        out.err = none) ∧
    (∀ (fuel : Nat) (out : FetchOut κ ε),
      Client.getIssueComments c ownerName repoName issueNumber fuel =
          some out → out.err = none) ∧
    (∀ (res : BResult ι κ ε) (e : ε),
      backupIssues c ownerName repoName writeErr fuelI fuelC = some res →
      res.err = some e → ∃ n, writeErr n = some e) := by
  refine ⟨fun fuel out h => getIssues_err_none c _ _ _ _ h,
    fun fuel out h => getIssueComments_err_none c _ _ _ _ _ h, ?_⟩
  intro res e h he
  unfold backupIssues at h
  cases hI : Client.getIssues (ε := ε) c ownerName repoName fuelI with
  | none =>
    rw [hI] at h
    cases h
  | some iOut =>
    rw [hI] at h
    dsimp only at h
    rw [getIssues_err_none c _ _ _ _ hI] at h
    dsimp only at h
    exact backupLoop_err_from_write _ writeErr
      (fun m cOut hx => getIssueComments_err_none c _ _ _ _ _ hx)
      _ _ _ _ _ _ h he

/-- Witness for C3, applying the nil-error contract to a concrete
one-page run. -/
theorem fetcher_always_signals_success_witness :
    (⟨[⟨1, 0, 0⟩], none, [], [0], []⟩ : FetchOut (Issue Nat) Unit).err =
      none :=
  (fetcher_always_signals_success (srcClient (pagedSource [[⟨1, 0, 0⟩]]))
    "acme" "widgets" 7 (fun _ => none) 2 2).1 2 _ rfl

/-- Failure-free run of `backupIssues`: the output is exactly the issues
in fetched order, each as one JSON value plus a blank line, each
comment-advertising issue immediately followed by its fetched comment
array plus a blank line; comment fetches happen exactly for the
comment-advertising issues in order. -/
theorem backupIssues_ok {ι κ ε : Type} (c : Client (Issue ι) κ)
    (ownerName repoName : String) (writeErr : Nat → Option ε)
    (fuelI fuelC : Nat) (iOut : FetchOut (Issue ι) ε)
    (gout : Int → FetchOut κ ε)
    (hI : Client.getIssues c ownerName repoName fuelI = some iOut)
    (hG : ∀ m, Client.getIssueComments c ownerName repoName m fuelC =
      some (gout m))
    (hW : ∀ n, writeErr n = none) :
    backupIssues c ownerName repoName writeErr fuelI fuelC =
      some ⟨emitAll (fun m => (gout m).records) iOut.records,
            commentNums iOut.records, none⟩ := by
  unfold backupIssues
  rw [hI]
  dsimp only
  rw [getIssues_err_none c _ _ _ _ hI]
  dsimp only
  rw [backupLoop_ok _ gout writeErr hG
    (fun m => getIssueComments_err_none c _ _ _ _ _ (hG m)) hW]
  rw [List.nil_append, List.nil_append]

/-- C7: on a successful run the orchestrator emits the issues in exactly
the order the issues fetcher returned, each issue as one JSON value
followed by a blank separator line, and, immediately after each issue
with comments, that issue's comment sequence in exactly the order the
comments fetcher returned, as one JSON array value followed by a blank
separator line. -/
theorem emission_order {ι κ ε : Type} (c : Client (Issue ι) κ)
    (ownerName repoName : String) (writeErr : Nat → Option ε)
    (fuelI fuelC : Nat) (iOut : FetchOut (Issue ι) ε)
    (gout : Int → FetchOut κ ε)
    (hI : Client.getIssues c ownerName repoName fuelI = some iOut)
    (hG : ∀ m, Client.getIssueComments c ownerName repoName m fuelC =
      some (gout m))
    (hW : ∀ n, writeErr n = none) :
    backupIssues c ownerName repoName writeErr fuelI fuelC =
      some ⟨emitAll (fun m => (gout m).records) iOut.records,
            commentNums iOut.records, none⟩ :=
  backupIssues_ok c ownerName repoName writeErr fuelI fuelC iOut gout hI hG hW

/-- Witness for C7: the spec's example scenario — issue 1 without
comments, issue 2 with a single page of three comments. -/
theorem emission_order_witness :
    backupIssues (ι := Nat) (ε := Unit)
      ⟨fun _ _ _ _ => Resp.ok [⟨1, 0, 10⟩, ⟨2, 3, 20⟩] 0,
       fun _ _ _ _ _ => Resp.ok ([7, 8, 9] : List Nat) 0⟩
      "acme" "widgets" (fun _ => none) 2 2 =
      some ⟨[OutEvent.issueJSON ⟨1, 0, 10⟩, OutEvent.blankLine,
             OutEvent.issueJSON ⟨2, 3, 20⟩, OutEvent.blankLine,
             OutEvent.commentsJSON [7, 8, 9], OutEvent.blankLine],
            [2], none⟩ := by
  have h := emission_order (ι := Nat) (ε := Unit)
    ⟨fun _ _ _ _ => Resp.ok [⟨1, 0, 10⟩, ⟨2, 3, 20⟩] 0,
     fun _ _ _ _ _ => Resp.ok ([7, 8, 9] : List Nat) 0⟩
    "acme" "widgets" (fun _ => none) 2 2
    ⟨[⟨1, 0, 10⟩, ⟨2, 3, 20⟩], none, [], [0], []⟩
    (fun _ => ⟨[7, 8, 9], none, [], [0], []⟩) rfl (fun _ => rfl)
    (fun _ => rfl)
  rw [h]
  rfl

/-- A failure-free emission contains one comments value per
comment-advertising issue. -/
theorem emitAll_countP {ι κ : Type} (crecs : Int → List κ) :
    ∀ issues : List (Issue ι),
      (emitAll crecs issues).countP isCommentsEv =
        (issues.filter (fun issue => decide (0 < issue.comments))).length := by
  intro issues
  induction issues with
  | nil => rfl
  | cons issue rest ih =>
    have hsplit : emitAll crecs (issue :: rest) =
        emitOf crecs issue ++ emitAll crecs rest := by
      rw [emitAll, List.map_cons, List.flatten_cons]
      rfl
    have hone : (emitOf crecs issue).countP isCommentsEv =
        if 0 < issue.comments then 1 else 0 := by
      by_cases hc : 0 < issue.comments
      · rw [emitOf, if_pos hc, if_pos hc]
        rfl
      · rw [emitOf, if_neg hc, if_neg hc]
        rfl
    rw [hsplit, List.countP_append, ih, hone, List.filter_cons]
    by_cases hc : 0 < issue.comments
    · simp [hc]
      omega
    · simp [hc]

/-- C6: on a successful run the orchestrator invokes the comments fetch
exactly for the issues whose comment count is positive, in order and with
those issues' identifiers — an issue with comment count zero never
triggers a fetch — and the emitted stream carries exactly one comments
value per comment-advertising issue, so zero-comment issues get no
empty-array placeholder. -/
theorem zero_comment_skip {ι κ ε : Type} (c : Client (Issue ι) κ)
    (ownerName repoName : String) (writeErr : Nat → Option ε)
    (fuelI fuelC : Nat) (iOut : FetchOut (Issue ι) ε)
    (gout : Int → FetchOut κ ε)
    (hI : Client.getIssues c ownerName repoName fuelI = some iOut)
    (hG : ∀ m, Client.getIssueComments c ownerName repoName m fuelC =
      some (gout m))
    (hW : ∀ n, writeErr n = none) :
    ∃ res : BResult ι κ ε,
      backupIssues c ownerName repoName writeErr fuelI fuelC = some res ∧
      res.commentCalls = commentNums iOut.records ∧
      res.out.countP isCommentsEv =
        (iOut.records.filter (fun issue => decide (0 < issue.comments))).length :=
  ⟨⟨emitAll (fun m => (gout m).records) iOut.records,
    commentNums iOut.records, none⟩,
   backupIssues_ok c ownerName repoName writeErr fuelI fuelC iOut gout hI hG hW,
   rfl, emitAll_countP _ _⟩

/-- Witness for C6 at a concrete two-issue run: only issue 2 advertises
comments, so only it triggers a fetch and only one comments value is
emitted. -/
theorem zero_comment_skip_witness :
    ∃ res : BResult Nat Nat Unit,
      backupIssues (ι := Nat) (ε := Unit)
        ⟨fun _ _ _ _ => Resp.ok [⟨1, 0, 10⟩, ⟨2, 3, 20⟩] 0,
         fun _ _ _ _ _ => Resp.ok ([7, 8, 9] : List Nat) 0⟩
        "acme" "widgets" (fun _ => none) 2 2 = some res ∧
      res.commentCalls = commentNums [⟨1, 0, 10⟩, ⟨2, 3, 20⟩] ∧
      res.out.countP isCommentsEv =
        (([⟨1, 0, 10⟩, ⟨2, 3, 20⟩] : List (Issue Nat)).filter
          (fun issue => decide (0 < issue.comments))).length :=
  zero_comment_skip (ι := Nat) (ε := Unit)
    ⟨fun _ _ _ _ => Resp.ok [⟨1, 0, 10⟩, ⟨2, 3, 20⟩] 0,
     fun _ _ _ _ _ => Resp.ok ([7, 8, 9] : List Nat) 0⟩
    "acme" "widgets" (fun _ => none) 2 2
    ⟨[⟨1, 0, 10⟩, ⟨2, 3, 20⟩], none, [], [0], []⟩
    (fun _ => ⟨[7, 8, 9], none, [], [0], []⟩) rfl (fun _ => rfl) (fun _ => rfl)

/-- Processing a split issue list: a failure-free prefix advances the
write counter by its write count and appends its emission and its comment
calls, after which the loop continues with the remaining issues. -/
theorem backupLoop_append {ι κ ε : Type} (gc : Int → Option (FetchOut κ ε))
    (gout : Int → FetchOut κ ε) (we : Nat → Option ε)
    (hgc : ∀ m, gc m = some (gout m)) (hge : ∀ m, (gout m).err = none) :
    ∀ (pre rest : List (Issue ι)) (w : Nat) (out : List (OutEvent ι κ))
      (calls : List Int),
      (∀ n, w ≤ n → n < w + writesUsed pre → we n = none) →
      backupLoop gc we (pre ++ rest) w out calls =
        backupLoop gc we rest (w + writesUsed pre)
          (out ++ emitAll (fun m => (gout m).records) pre)
          (calls ++ commentNums pre) := by
  intro pre
  induction pre with
  | nil =>
    intro rest w out calls hwe
    rw [List.nil_append,
      show writesUsed ([] : List (Issue ι)) = 0 from rfl,
      show emitAll (fun m => (gout m).records) ([] : List (Issue ι)) = []
        from rfl,
      show commentNums ([] : List (Issue ι)) = [] from rfl,
      Nat.add_zero, List.append_nil, List.append_nil]
  | cons issue pre ih =>
    intro rest w out calls hwe
    by_cases hc : 0 < issue.comments
    · have hwu : writesUsed (issue :: pre) = 2 + writesUsed pre := by
        rw [writesUsed_cons, if_pos hc]
      have hw0 : we w = none := hwe w le_rfl (by rw [hwu]; omega)
      have hw1 : we (w + 1) = none := hwe (w + 1) (by omega) (by rw [hwu]; omega)
      rw [List.cons_append, backupLoop, hw0]
      dsimp only
      rw [if_pos hc, hgc issue.number]
      dsimp only
      rw [hge issue.number]
      dsimp only
      rw [hw1]
      dsimp only
      rw [ih rest (w + 2) _ _
        (fun n h1 h2 => hwe n (by omega) (by rw [hwu]; omega))]
      rw [hwu]
      have harg : w + 2 + writesUsed pre = w + (2 + writesUsed pre) := by omega
      rw [harg]
      simp only [emitAll, commentNums, emitOf, List.map_cons, List.flatten_cons,
        List.filter_cons, decide_eq_true hc, if_pos hc, List.append_assoc,
        List.cons_append, List.nil_append, List.singleton_append, if_true,
        if_false]
    · have hwu : writesUsed (issue :: pre) = 1 + writesUsed pre := by
        rw [writesUsed_cons, if_neg hc]
      have hw0 : we w = none := hwe w le_rfl (by rw [hwu]; omega)
      rw [List.cons_append, backupLoop, hw0]
      dsimp only
      rw [if_neg hc]
      rw [ih rest (w + 1) _ _
        (fun n h1 h2 => hwe n (by omega) (by rw [hwu]; omega))]
      rw [hwu]
      have harg : w + 1 + writesUsed pre = w + (1 + writesUsed pre) := by omega
      rw [harg]
      simp only [emitAll, commentNums, emitOf, List.map_cons, List.flatten_cons,
        List.filter_cons, decide_eq_false hc, if_neg hc, List.append_assoc,
        List.cons_append, List.nil_append, List.append_nil,
        List.singleton_append, if_true, if_false, Bool.false_eq_true]

/-- C8: if an emission write fails — the write of an issue record or of a
comment array — `backupIssues` aborts immediately: the emitted output and
the comment fetches are exactly those made before the failing write, no
further issue or comment is fetched or emitted, and the write's error
value itself is returned to the caller. -/
theorem emission_error_aborts {ι κ ε : Type} (c : Client (Issue ι) κ)
    (ownerName repoName : String) (we : Nat → Option ε) (fuelI fuelC : Nat)
    (iOut : FetchOut (Issue ι) ε) (gout : Int → FetchOut κ ε)
    (pre post : List (Issue ι)) (issue : Issue ι) (e : ε)
    (hI : Client.getIssues c ownerName repoName fuelI = some iOut)
    (hsplit : iOut.records = pre ++ issue :: post)
    (hG : ∀ m, Client.getIssueComments c ownerName repoName m fuelC =
      some (gout m))
    (hpre : ∀ n, n < writesUsed pre → we n = none) :
    (we (writesUsed pre) = some e →
      backupIssues c ownerName repoName we fuelI fuelC =
        some ⟨emitAll (fun m => (gout m).records) pre, commentNums pre,
          some e⟩) ∧
    (we (writesUsed pre) = none → 0 < issue.comments →
      we (writesUsed pre + 1) = some e →
      backupIssues c ownerName repoName we fuelI fuelC =
        some ⟨emitAll (fun m => (gout m).records) pre ++
                [OutEvent.issueJSON issue, OutEvent.blankLine],
              commentNums pre ++ [issue.number], some e⟩) := by
  have hge : ∀ m, (gout m).err = none :=
    fun m => getIssueComments_err_none c _ _ _ _ _ (hG m)
  have hmain : backupIssues c ownerName repoName we fuelI fuelC =
      backupLoop
        (fun n => Client.getIssueComments c ownerName repoName n fuelC) we
        (issue :: post) (writesUsed pre)
        (emitAll (fun m => (gout m).records) pre) (commentNums pre) := by
    unfold backupIssues
    rw [hI]
    dsimp only
    rw [getIssues_err_none c _ _ _ _ hI]
    dsimp only
    rw [hsplit, backupLoop_append _ gout we hG hge pre (issue :: post) 0 [] []
      (fun n h1 h2 => hpre n (by omega))]
    rw [Nat.zero_add, List.nil_append, List.nil_append]
  constructor
  · intro hw
    rw [hmain, backupLoop, hw]
  · intro hw0 hc hw1
    rw [hmain, backupLoop, hw0]
    dsimp only
    rw [if_pos hc, hG issue.number]
    dsimp only
    rw [hge issue.number]
    dsimp only
    rw [hw1]

/-- Witness for C8: the write of issue 2 (write number 1) fails; only
issue 1 has been emitted, no comment fetch happened, and the error is
returned. -/
theorem emission_error_aborts_witness :
    backupIssues (ι := Nat) (ε := Unit)
      ⟨fun _ _ _ _ => Resp.ok [⟨1, 0, 10⟩, ⟨2, 3, 20⟩] 0,
       fun _ _ _ _ _ => Resp.ok ([7, 8, 9] : List Nat) 0⟩
      "acme" "widgets" (fun n => if n = 0 then none else some ()) 2 2 =
      some ⟨[OutEvent.issueJSON ⟨1, 0, 10⟩, OutEvent.blankLine], [],
        some ()⟩ := by
  have h := (emission_error_aborts (ι := Nat) (ε := Unit)
    ⟨fun _ _ _ _ => Resp.ok [⟨1, 0, 10⟩, ⟨2, 3, 20⟩] 0,
     fun _ _ _ _ _ => Resp.ok ([7, 8, 9] : List Nat) 0⟩
    "acme" "widgets" (fun n => if n = 0 then none else some ()) 2 2
    ⟨[⟨1, 0, 10⟩, ⟨2, 3, 20⟩], none, [], [0], []⟩
    (fun _ => ⟨[7, 8, 9], none, [], [0], []⟩)
    [⟨1, 0, 10⟩] [] ⟨2, 3, 20⟩ ()
    rfl rfl (fun _ => rfl)
    (fun n hn => by
      have h1 : writesUsed ([⟨1, 0, 10⟩] : List (Issue Nat)) = 1 := rfl
      have h0 : n = 0 := by omega
      subst h0
      rfl)).1 rfl
  rw [h]
  rfl

/-- C10: an issue advertising comments still gets a comments value
emitted even when the comment fetch retrieved zero records — here the
comment endpoint fails its very first page with a non-rate-limit error,
so the fetch returns an empty collection with a nil error — and the
orchestrator emits an empty comments array followed by a blank line
rather than skipping the comments emission. -/
theorem empty_comments_still_emitted {ι κ ε : Type}
    (epI : String → String → Nat → Nat → Resp (Issue ι))
    (ownerName repoName : String) (we : Nat → Option ε) (fuelI : Nat)
    (iOut : FetchOut (Issue ι) ε)
    (hI : Client.getIssues
      (Client.mk (κ := κ) epI (fun _ _ _ _ _ => Resp.fail GoErr.other))
      ownerName repoName fuelI = some iOut)
    (hW : ∀ n, we n = none) :
    backupIssues (Client.mk epI (fun _ _ _ _ _ => Resp.fail GoErr.other))
        ownerName repoName we fuelI 1 =
      some ⟨emitAll (fun _ => ([] : List κ)) iOut.records,
            commentNums iOut.records, none⟩ ∧
    ∀ issue : Issue ι, 0 < issue.comments →
      emitOf (fun _ => ([] : List κ)) issue =
        [OutEvent.issueJSON issue, OutEvent.blankLine,
         OutEvent.commentsJSON ([] : List κ), OutEvent.blankLine] := by
  constructor
  · exact backupIssues_ok
      (Client.mk epI (fun _ _ _ _ _ => Resp.fail GoErr.other))
      ownerName repoName we fuelI 1 iOut
      (fun _ => ⟨[], none, [1], [0], []⟩) hI (fun _ => rfl) hW
  · intro issue hc
    rw [emitOf, if_pos hc]
    rfl

/-- Witness for C10: one issue advertising three comments whose comment
fetch fails on page 1; an empty comments value is still emitted. -/
theorem empty_comments_still_emitted_witness :
    backupIssues (ι := Nat) (κ := Nat) (ε := Unit)
      ⟨fun _ _ _ _ => Resp.ok [⟨2, 3, 20⟩] 0,
       fun _ _ _ _ _ => Resp.fail GoErr.other⟩
      "acme" "widgets" (fun _ => none) 2 1 =
      some ⟨[OutEvent.issueJSON ⟨2, 3, 20⟩, OutEvent.blankLine,
             OutEvent.commentsJSON ([] : List Nat), OutEvent.blankLine],
            [2], none⟩ := by
  have h := (empty_comments_still_emitted (ι := Nat) (κ := Nat) (ε := Unit)
    (fun _ _ _ _ => Resp.ok [⟨2, 3, 20⟩] 0) "acme" "widgets"
    (fun _ => none) 2 ⟨[⟨2, 3, 20⟩], none, [], [0], []⟩ rfl
    (fun _ => rfl)).1
  rw [h]
  rfl

/-- Termination of the page walk: if every rate-limit streak ends — for
every call number and selector, some later retry is not rate-limited —
and every indicated next page strictly decreases some measure, then from
every state the loop finishes on some fuel. -/
theorem fetchLoop_terminates {α ε : Type} (ep : Nat → Nat → Resp α)
    (hA : ∀ c s, ∃ d, (ep (c + d) s).isRL = false)
    (v : Nat → Nat)
    (hv : ∀ c s records next, ep c s = Resp.ok records next → ¬(next = 0) →
      v next < v s) :
    ∀ (N s : Nat), v s ≤ N →
    ∀ (c page : Nat) (acc : List α) (log : List Nat) (bks : List Int),
      ∃ fuel out,
        fetchLoop (ε := ε) ep fuel c s page acc log bks = some out := by
  intro N
  induction N using Nat.strong_induction_on with
  | _ N IH =>
    intro s hN
    suffices h : ∀ (d c page : Nat) (acc : List α) (log : List Nat)
        (bks : List Int), (ep (c + d) s).isRL = false →
        ∃ fuel out,
          fetchLoop (ε := ε) ep fuel c s page acc log bks = some out by
      intro c page acc log bks
      obtain ⟨d, hd⟩ := hA c s
      exact h d c page acc log bks hd
    intro d
    induction d with
    | zero =>
      intro c page acc log bks h0
      rw [Nat.add_zero] at h0
      cases hres : ep c s with
      | ok records next =>
        by_cases hn : next = 0
        · exact ⟨1, _, by rw [fetchLoop, hres]; dsimp only; rw [if_pos hn]⟩
        · have hvn : v next < v s := hv c s records next hres hn
          obtain ⟨fuel, out, hf⟩ := IH (v next) (by omega) next le_rfl (c + 1)
            (page + 1) (acc ++ records) (log ++ [s]) bks
          exact ⟨fuel + 1, out, by
            rw [fetchLoop, hres]
            dsimp only
            rw [if_neg hn]
            exact hf⟩
      | fail e =>
        cases e with
        | rateLimit reset =>
          rw [hres] at h0
          simp [Resp.isRL] at h0
        | other => exact ⟨1, _, by rw [fetchLoop, hres]⟩
    | succ d ihd =>
      intro c page acc log bks hd1
      cases hres : ep c s with
      | ok records next =>
        by_cases hn : next = 0
        · exact ⟨1, _, by rw [fetchLoop, hres]; dsimp only; rw [if_pos hn]⟩
        · have hvn : v next < v s := hv c s records next hres hn
          obtain ⟨fuel, out, hf⟩ := IH (v next) (by omega) next le_rfl (c + 1)
            (page + 1) (acc ++ records) (log ++ [s]) bks
          exact ⟨fuel + 1, out, by
            rw [fetchLoop, hres]
            dsimp only
            rw [if_neg hn]
            exact hf⟩
      | fail e =>
        cases e with
        | rateLimit reset =>
          obtain ⟨fuel, out, hf⟩ := ihd (c + 1) page acc (log ++ [s])
            (bks ++ [reset]) (by
              have h' : c + 1 + d = c + (d + 1) := by omega
              rw [h']
              exact hd1)
          exact ⟨fuel + 1, out, by rw [fetchLoop, hres]; exact hf⟩
        | other => exact ⟨1, _, by rw [fetchLoop, hres]⟩

/-- C9: if the endpoint, for every page, eventually either succeeds or
returns a non-rate-limit error when retried, and every indicated next
page strictly decreases some measure (the no-next-page signal arises
after finitely many pages), then the fetcher's page loop terminates on
some fuel and returns the accumulated sequence with a nil error; in
particular a source answering with zero total records yields an empty
sequence without error. -/
theorem fetch_terminates {α ε : Type} (ep : Nat → Nat → Resp α)
    (hA : ∀ c s, ∃ d, (ep (c + d) s).isRL = false)
    (hB : ∃ v : Nat → Nat, ∀ c s records next,
      ep c s = Resp.ok records next → ¬(next = 0) → v next < v s) :
    (∃ fuel out, fetchPages (ε := ε) ep fuel = some out ∧ out.err = none) ∧
    (ep 0 0 = Resp.ok [] 0 →
      fetchPages (ε := ε) ep 1 = some ⟨[], none, [], [0], []⟩) := by
  constructor
  · obtain ⟨v, hv⟩ := hB
    obtain ⟨fuel, out, hf⟩ := fetchLoop_terminates (ε := ε) ep hA v hv (v 0) 0
      le_rfl 0 1 [] [] []
    exact ⟨fuel, out, hf, fetchLoop_err_none _ _ _ _ _ _ _ _ _ hf⟩
  · intro hz
    rw [fetchPages, fetchLoop, hz]
    rfl

/-- Witness for C9: the empty source, which answers every request with an
empty final page. -/
theorem fetch_terminates_witness :
    (∃ fuel out,
      fetchPages (ε := Unit) (fun _ _ => Resp.ok ([] : List Nat) 0) fuel =
        some out ∧ out.err = none) ∧
    (fetchPages (ε := Unit) (fun _ _ => Resp.ok ([] : List Nat) 0) 1 =
      some ⟨[], none, [], [0], []⟩) := by
  have h := fetch_terminates (ε := Unit) (fun _ _ => Resp.ok ([] : List Nat) 0)
    (fun c s => ⟨0, rfl⟩)
    ⟨fun _ => 0, fun c s records next hok hne => by
      injection hok with h1 h2
      exact absurd h2.symm hne⟩
  exact ⟨h.1, h.2 rfl⟩

end IssueBackup
